import Mathlib

/-!
Verification of the `nock` repository (`src/nock.py`), a Python interpreter
for the Nock combinator calculus.

The embedding models Python values flowing through the interpreter:

* `Val.int n`  — a Python non-negative integer (a Nock atom);
* `Val.tup l`  — a Python tuple of any arity (Nock cells are 2-tuples, but
  flat input tuples of any length occur before normalisation by `_t`);
* `Val.none`   — Python `None`, which `_tar` produces when its `if`/`elif`
  dispatch falls through (an invalid opcode has no matching branch and the
  function returns `None` implicitly).

Fallible code is modelled with `Except Fail Val`:

* `Fail.typeErr`  — a Python `TypeError` (subscripting an `int`/`None`,
  `%` on a tuple, `*`-unpacking a non-iterable).  `_fas` catches exactly
  this kind and returns the noun unchanged;
* `Fail.indexErr` — a Python `IndexError` (subscript out of range,
  `lst[0]` on an empty sequence in `_t`); never caught;
* `Fail.oof`      — out of fuel: models non-termination / Python's
  `RuntimeError` on exceeding the recursion limit; never caught.

`aorc`, `t`, `wut`, `lus`, `tis`, `fas`, `tar` are direct translations of
`_aorc`, `_t`, `_wut`, `_lus`, `_tis`, `_fas`, `_tar`.  `fas` and `tar`
take fuel (first argument) because the source recursion need not
terminate; all recursion here is structural, so every definition
evaluates inside the kernel.  `rbind` sequences fallible computations the
way Python sequences statements: the first uncaught exception propagates.
-/

namespace Nock

inductive Val where
  | int : Nat → Val
  | tup : List Val → Val
  | none : Val
deriving Repr

inductive Fail where
  | typeErr
  | indexErr
  | oof
deriving DecidableEq, Repr

abbrev Res := Except Fail Val

mutual
/-- Python structural equality `==` restricted to the values that occur in
the interpreter (ints, tuples, `None`); used by `_tis`. -/
def valBeq : Val → Val → Bool
  | .int a, .int b => a == b
  | .tup a, .tup b => listBeq a b
  | .none, .none => true
  | _, _ => false

def listBeq : List Val → List Val → Bool
  | [], [] => true
  | a :: as, b :: bs => valBeq a b && listBeq as bs
  | _, _ => false
end

/-- `0` is "yes"/true in Nock. -/
def YES : Val := .int 0

/-- `1` is "no"/false in Nock. -/
def NO : Val := .int 1

/-- Sequencing of fallible steps: Python propagates the first uncaught
exception. -/
def rbind (r : Res) (k : Val → Res) : Res :=
  match r with
  | .error e => .error e
  | .ok v => k v

/-- Python `x[0]`: `TypeError` on a non-tuple, `IndexError` on an empty
tuple. -/
def pyFst : Val → Res
  | .tup (a :: _) => .ok a
  | .tup [] => .error .indexErr
  | _ => .error .typeErr

/-- Python `x[1]`: `TypeError` on a non-tuple, `IndexError` on a tuple of
length < 2. -/
def pySnd : Val → Res
  | .tup (_ :: b :: _) => .ok b
  | .tup _ => .error .indexErr
  | _ => .error .typeErr

mutual
/-- `_aorc(a)`: return an atom or a properly structured cell.  A Python
tuple (the only iterable in the value domain) is restructured by `_t`;
anything else is returned unchanged. -/
def aorc : Val → Res
  | .tup l => t l
  | v => .ok v

/-- `_t(*lst)`: properly structure an improper list
(`2 :: [a b c] → [a [b c]]`).  The empty argument list hits `lst[0]` in
the final branch of the source and raises `IndexError`. -/
def t : List Val → Res
  | [] => .error .indexErr
  | [a] => rbind (aorc a) fun a' => .ok (.tup [a', .int 0])
  | [a, b] => rbind (aorc a) fun a' => rbind (aorc b) fun b' => .ok (.tup [a', b'])
  | a :: b :: c :: rest =>
    rbind (aorc a) fun a' =>
    rbind (t (b :: c :: rest)) fun r => .ok (.tup [a', r])
end

/-- `_wut(noun)`: `?` — cell test.  `NO` (1) for an `int`, `YES` (0) for
anything else (tuples, and also `None`). -/
def wut : Val → Val
  | .int _ => NO
  | _ => YES

/-- `_lus(noun)`: `+` — increment an atom, return anything else
unchanged. -/
def lus : Val → Val
  | .int n => .int (n + 1)
  | v => v

/-- `_tis(noun)`: `=` — `YES if noun[0] == noun[1] else NO`. -/
def tis (noun : Val) : Res :=
  rbind (pyFst noun) fun x =>
  rbind (pySnd noun) fun y =>
  .ok (if valBeq x y then YES else NO)

/-- The `except TypeError: return noun` handler wrapped around the body
of `_fas`. -/
def fasCatch (noun : Val) : Res → Res
  | .error .typeErr => .ok noun
  | r => r

/-- `_fas((n, noun))`: `/` — slot addressing.  The body runs inside
`try: ... except TypeError: return noun`, so taking the head or tail of
an atom (or using a non-integer address) returns `noun` unchanged instead
of crashing.  The final `else: return noun` of the source is unreachable
(an integer is even or odd; a non-integer raises on `n % 2` first) and is
not represented. -/
def fas : Nat → Val → Val → Res
  | 0, _, _ => .error .oof
  | fuel + 1, n, noun0 =>
    rbind (aorc noun0) fun noun =>
    fasCatch noun
      (if valBeq n (.int 1) then .ok noun
       else if valBeq n (.int 2) then pyFst noun
       else if valBeq n (.int 3) then pySnd noun
       else
         match n with
         | .int m =>
           if m % 2 = 0 then
             rbind (fas fuel (.int (m / 2)) noun) fun inner =>
             fas fuel (.int 2) inner
           else
             rbind (fas fuel (.int ((m - 1) / 2)) noun) fun inner =>
             fas fuel (.int 3) inner
         | _ => .error .typeErr)

/-- `_tar(noun)`: `*` — reduce a Nock expression.  The input is first
normalised by `_t(*noun)` (a `TypeError` if it is not a tuple), carved
into subject / opcode / object with `_fas`, and dispatched through the
source's `if`/`elif` chain.  An opcode atom outside `{0..10}` matches no
branch and the Python function returns `None`. -/
def tar : Nat → Val → Res
  | 0, _ => .error .oof
  | fuel + 1, noun0 =>
    match noun0 with
    | .tup l =>
      rbind (t l) fun noun =>
      rbind (fas fuel (.int 2) noun) fun subj =>
      rbind (fas fuel (.int 6) noun) fun op =>
      rbind (fas fuel (.int 7) noun) fun obj =>
      if valBeq (wut op) YES then
        -- 19 ::  *[a [b c] d]  [*[a b c] *[a d]]
        rbind (tar fuel (.tup [subj, op])) fun x =>
        rbind (tar fuel (.tup [subj, obj])) fun y =>
        .ok (.tup [x, y])
      else if valBeq op (.int 0) then
        -- 21 ::  *[a 0 b]  /[b a]
        fas fuel obj subj
      else if valBeq op (.int 1) then
        -- 22 ::  *[a 1 b]  b
        .ok obj
      else if valBeq op (.int 2) then
        -- 23 ::  *[a 2 b c]  *[*[a b] *[a c]]
        rbind (fas fuel (.int 2) obj) fun b =>
        rbind (fas fuel (.int 3) obj) fun c =>
        rbind (tar fuel (.tup [subj, b])) fun u =>
        rbind (tar fuel (.tup [subj, c])) fun v =>
        tar fuel (.tup [u, v])
      else if valBeq op (.int 3) then
        -- 24 ::  *[a 3 b]  ?*[a b]
        rbind (tar fuel (.tup [subj, obj])) fun u => .ok (wut u)
      else if valBeq op (.int 4) then
        -- 25 ::  *[a 4 b]  +*[a b]
        rbind (tar fuel (.tup [subj, obj])) fun u => .ok (lus u)
      else if valBeq op (.int 5) then
        -- 26 ::  *[a 5 b]  =*[a b]
        rbind (tar fuel (.tup [subj, obj])) fun u => tis u
      else if valBeq op (.int 6) then
        -- 28 ::  *[a 6 b c d]  *[a 2 [0 1] 2 [1 c d] [1 0] 2 [1 2 3] [1 0] 4 4 b]
        rbind (fas fuel (.int 2) obj) fun b =>
        rbind (fas fuel (.int 6) obj) fun c =>
        rbind (fas fuel (.int 7) obj) fun d =>
        tar fuel (.tup [subj, .int 2, .tup [.int 0, .int 1], .int 2,
          .tup [.int 1, c, d], .tup [.int 1, .int 0], .int 2,
          .tup [.int 1, .int 2, .int 3], .tup [.int 1, .int 0],
          .int 4, .int 4, b])
      else if valBeq op (.int 7) then
        -- 29 ::  *[a 7 b c]  *[a 2 b 1 c]
        rbind (fas fuel (.int 2) obj) fun b =>
        rbind (fas fuel (.int 3) obj) fun c =>
        tar fuel (.tup [subj, .int 2, b, .int 1, c])
      else if valBeq op (.int 8) then
        -- 30 ::  *[a 8 b c]  *[a 7 [[7 [0 1] b] 0 1] c]
        rbind (fas fuel (.int 2) obj) fun b =>
        rbind (fas fuel (.int 3) obj) fun c =>
        tar fuel (.tup [subj, .int 7,
          .tup [.tup [.int 7, .tup [.int 0, .int 1], b], .int 0, .int 1], c])
      else if valBeq op (.int 9) then
        -- 31 ::  *[a 9 b c]  *[a 7 c 2 [0 1] 0 b]
        rbind (fas fuel (.int 2) obj) fun b =>
        rbind (fas fuel (.int 3) obj) fun c =>
        tar fuel (.tup [subj, .int 7, c, .int 2, .tup [.int 0, .int 1],
          .int 0, b])
      else if valBeq op (.int 10) then
        -- 32 ::  *[a 10 [b c] d]  (source builds *[a 8 (hint head) 7 [0 3] obj])
        -- 33 ::  *[a 10 b c]  *[a c]
        rbind (fas fuel (.int 2) obj) fun hint =>
        if valBeq (wut hint) YES then
          rbind (fas fuel (.int 2) hint) fun c =>
          tar fuel (.tup [subj, .int 8, c, .int 7, .tup [.int 0, .int 3], obj])
        else
          rbind (fas fuel (.int 3) obj) fun c =>
          tar fuel (.tup [subj, c])
      else
        -- no branch matched: Python falls off the function, returning None
        .ok .none
    | _ => .error .typeErr

/-- Values fixed by `_aorc`: ints, `None`, and 2-tuples of such — exactly
the shape `_t` produces.  Nock nouns are the `none`-free subset. -/
inductive IsProper : Val → Prop
  | int (n : Nat) : IsProper (.int n)
  | none : IsProper .none
  | cell {a b : Val} : IsProper a → IsProper b → IsProper (.tup [a, b])

/-- Arguments acceptable to the construction helper: atoms, or non-empty
tuples of such, recursively — "a flat sequence of one or more noun-or-raw
values". -/
inductive GoodArg : Val → Prop
  | int (n : Nat) : GoodArg (.int n)
  | tup {l : List Val} : l ≠ [] → (∀ v ∈ l, GoodArg v) → GoodArg (.tup l)

/-- `_tar` terminates on `x` with value `v`: `tar` returns `.ok v` for
some amount of fuel (hence, by `tar_mono`, for any larger amount). -/
def Evals (x v : Val) : Prop := ∃ f, tar f x = .ok v

/-- `_fas` terminates on address `n` and noun `x` with value `v`. -/
def FasEvals (n x v : Val) : Prop := ∃ f, fas f n x = .ok v

/-! ## Theorems: Python equality is structural equality -/

mutual
theorem valBeq_iff : ∀ a b : Val, valBeq a b = true ↔ a = b
  | .int a, .int b => by simp [valBeq]
  | .tup a, .tup b => by
      rw [valBeq]
      constructor
      · intro h; rw [(listBeq_iff a b).mp h]
      · intro h; cases h; exact (listBeq_iff a a).mpr rfl
  | .none, .none => by simp [valBeq]
  | .int _, .tup _ => by simp [valBeq]
  | .int _, .none => by simp [valBeq]
  | .tup _, .int _ => by simp [valBeq]
  | .tup _, .none => by simp [valBeq]
  | .none, .int _ => by simp [valBeq]
  | .none, .tup _ => by simp [valBeq]

theorem listBeq_iff : ∀ a b : List Val, listBeq a b = true ↔ a = b
  | [], [] => by simp [listBeq]
  | a :: as, b :: bs => by
      rw [listBeq]
      simp only [Bool.and_eq_true]
      rw [valBeq_iff a b, listBeq_iff as bs]
      simp
  | [], _ :: _ => by simp [listBeq]
  | _ :: _, [] => by simp [listBeq]
end

@[simp] theorem rbind_ok (v : Val) (k : Val → Res) : rbind (.ok v) k = k v := rfl

@[simp] theorem rbind_error (e : Fail) (k : Val → Res) :
    rbind (.error e) k = .error e := rfl


/-! ## Properly structured values -/

theorem aorc_int (n : Nat) : aorc (.int n) = .ok (.int n) := rfl

theorem t_pair {a b : Val} (ha : aorc a = .ok a) (hb : aorc b = .ok b) :
    t [a, b] = .ok (.tup [a, b]) := by
  simp [t, ha, hb]

theorem aorc_pair {a b : Val} (ha : aorc a = .ok a) (hb : aorc b = .ok b) :
    aorc (.tup [a, b]) = .ok (.tup [a, b]) := by
  simp only [aorc]
  exact t_pair ha hb

/-- `_aorc` is the identity on properly structured values. -/
theorem aorc_proper {v : Val} (h : IsProper v) : aorc v = .ok v := by
  induction h with
  | int n => rfl
  | none => rfl
  | cell _ _ iha ihb => exact aorc_pair iha ihb

/-! ## Which exceptions can escape which function -/

theorem fasCatch_ne_typeErr (noun : Val) (r : Res) :
    fasCatch noun r ≠ .error .typeErr := by
  cases r with
  | ok v => simp [fasCatch]
  | error e => cases e <;> simp [fasCatch]

mutual
/-- `_aorc` can only raise `IndexError` (from `_t` on an empty list),
never `TypeError`. -/
theorem aorc_ne_typeErr : ∀ v : Val, aorc v ≠ .error .typeErr
  | .int n => by simp [aorc]
  | .none => by simp [aorc]
  | .tup l => by
      rw [show aorc (.tup l) = t l from rfl]
      exact t_ne_typeErr l

theorem t_ne_typeErr : ∀ l : List Val, t l ≠ .error .typeErr
  | [] => by simp [t]
  | [a] => by
      rw [show t [a] = rbind (aorc a) fun a' => .ok (.tup [a', .int 0]) from rfl]
      cases h : aorc a with
      | error e =>
        simp only [rbind_error]
        intro hc
        rw [hc] at h
        exact aorc_ne_typeErr a h
      | ok a' => simp [rbind]
  | [a, b] => by
      rw [show t [a, b] =
        (rbind (aorc a) fun a' => rbind (aorc b) fun b' => .ok (.tup [a', b']))
        from rfl]
      cases h : aorc a with
      | error e =>
        simp only [rbind_error]
        intro hc
        rw [hc] at h
        exact aorc_ne_typeErr a h
      | ok a' =>
        simp only [rbind_ok]
        cases hb : aorc b with
        | error e =>
          simp only [rbind_error]
          intro hc
          rw [hc] at hb
          exact aorc_ne_typeErr b hb
        | ok b' => simp [rbind]
  | a :: b :: c :: rest => by
      rw [show t (a :: b :: c :: rest) =
        (rbind (aorc a) fun a' =>
          rbind (t (b :: c :: rest)) fun r => .ok (.tup [a', r])) from rfl]
      cases h : aorc a with
      | error e =>
        simp only [rbind_error]
        intro hc
        rw [hc] at h
        exact aorc_ne_typeErr a h
      | ok a' =>
        simp only [rbind_ok]
        cases ht : t (b :: c :: rest) with
        | error e =>
          simp only [rbind_error]
          intro hc
          rw [hc] at ht
          exact t_ne_typeErr (b :: c :: rest) ht
        | ok r => simp [rbind]
end

/-- `_fas` never raises `TypeError`: its own body is wrapped in
`except TypeError` and `_aorc` cannot raise one. -/
theorem fas_ne_typeErr (f : Nat) (n x : Val) : fas f n x ≠ .error .typeErr := by
  cases f with
  | zero => simp [fas]
  | succ f =>
    rw [fas]
    cases h : aorc x with
    | error e =>
      simp only [rbind_error]
      intro hc
      rw [hc] at h
      exact aorc_ne_typeErr x h
    | ok noun =>
      simp only [rbind_ok]
      exact fasCatch_ne_typeErr noun _

/-! ## Fuel monotonicity -/

/-- Monotonicity transport across `rbind`: if both the head and the
continuation are stable under extra fuel for non-out-of-fuel results, so
is the sequence. -/
theorem rbind_mono {a a' : Res} {k k' : Val → Res} {r : Res}
    (ha : ∀ s, a = s → s ≠ .error .oof → a' = s)
    (hk : ∀ v s, k v = s → s ≠ .error .oof → k' v = s)
    (h : rbind a k = r) (hr : r ≠ .error .oof) : rbind a' k' = r := by
  cases hA : a with
  | error e =>
    rw [hA, rbind_error] at h
    rw [ha _ hA (by rw [h]; exact hr), rbind_error]
    exact h
  | ok v =>
    rw [hA, rbind_ok] at h
    rw [ha _ hA (by simp), rbind_ok]
    exact hk v r h hr

/-- If the result of the guarded body is stable under extra fuel, so is
the result of the `except TypeError` handler around it. -/
theorem fasCatch_congr {noun : Val} {bf bg : Res} {s : Res}
    (hbody : ∀ u, bf = u → u ≠ .error .oof → bg = u)
    (h : fasCatch noun bf = s) (hs : s ≠ .error .oof) :
    fasCatch noun bg = s := by
  have hbf : bf ≠ .error .oof := by
    intro hb
    rw [hb] at h
    exact hs (h.symm ▸ rfl)
  rw [hbody bf rfl hbf]
  exact h

/-- More fuel never changes a `_fas` result that is not out-of-fuel. -/
theorem fas_mono : ∀ {f : Nat} {n x : Val} {r : Res} {g : Nat}, f ≤ g →
    fas f n x = r → r ≠ .error .oof → fas g n x = r := by
  intro f
  induction f with
  | zero =>
    intro n x r g _ h hr
    exact absurd (by rw [← h]; rfl) hr
  | succ f ih =>
    intro n x r g hfg h hr
    obtain ⟨g', rfl⟩ : ∃ g', g = g' + 1 := ⟨g - 1, by omega⟩
    have hfg' : f ≤ g' := by omega
    rw [fas] at h ⊢
    refine rbind_mono (fun s hs _ => hs) ?_ h hr
    intro noun s1 h1 ho1
    refine fasCatch_congr ?_ h1 ho1
    intro u hu huo
    split_ifs at hu ⊢
    · exact hu
    · exact hu
    · exact hu
    · cases n with
      | int m =>
        by_cases hm : m % 2 = 0
        · simp only [if_pos hm] at hu ⊢
          refine rbind_mono (fun s hs hso => ih hfg' hs hso)
            (fun v s hs hso => ih hfg' hs hso) hu huo
        · simp only [if_neg hm] at hu ⊢
          refine rbind_mono (fun s hs hso => ih hfg' hs hso)
            (fun v s hs hso => ih hfg' hs hso) hu huo
      | tup l => exact hu
      | none => exact hu

/-- More fuel never changes a `_tar` result that is not out-of-fuel. -/
theorem tar_mono : ∀ {f : Nat} {x : Val} {r : Res} {g : Nat}, f ≤ g →
    tar f x = r → r ≠ .error .oof → tar g x = r := by
  intro f
  induction f with
  | zero =>
    intro x r g _ h hr
    exact absurd (by rw [← h]; rfl) hr
  | succ f ih =>
    intro x r g hfg h hr
    obtain ⟨g', rfl⟩ : ∃ g', g = g' + 1 := ⟨g - 1, by omega⟩
    have hfg' : f ≤ g' := by omega
    cases x with
    | int n =>
      rw [show tar (f + 1) (Val.int n) = .error .typeErr from rfl] at h
      rw [show tar (g' + 1) (Val.int n) = .error .typeErr from rfl]
      exact h
    | none =>
      rw [show tar (f + 1) Val.none = .error .typeErr from rfl] at h
      rw [show tar (g' + 1) Val.none = .error .typeErr from rfl]
      exact h
    | tup l =>
      rw [tar] at h ⊢
      refine rbind_mono (fun s hs _ => hs) ?_ h hr
      intro noun s1 h1 ho1
      refine rbind_mono (fun s hs hso => fas_mono hfg' hs hso) ?_ h1 ho1
      intro subj s2 h2 ho2
      refine rbind_mono (fun s hs hso => fas_mono hfg' hs hso) ?_ h2 ho2
      intro op s3 h3 ho3
      refine rbind_mono (fun s hs hso => fas_mono hfg' hs hso) ?_ h3 ho3
      intro obj s4 h4 ho4
      by_cases hw : valBeq (wut op) YES = true
      · -- 19: autocons
        rw [if_pos hw] at h4 ⊢
        refine rbind_mono (fun s hs hso => ih hfg' hs hso) ?_ h4 ho4
        intro x s5 h5 ho5
        exact rbind_mono (fun s hs hso => ih hfg' hs hso)
          (fun y s hs _ => hs) h5 ho5
      rw [if_neg hw] at h4 ⊢
      by_cases hop : valBeq op (Val.int 0) = true
      · -- 21: opcode 0
        rw [if_pos hop] at h4 ⊢
        exact fas_mono hfg' h4 ho4
      rw [if_neg hop] at h4 ⊢; clear hop
      by_cases hop : valBeq op (Val.int 1) = true
      · -- 22: opcode 1
        rw [if_pos hop] at h4 ⊢
        exact h4
      rw [if_neg hop] at h4 ⊢; clear hop
      by_cases hop : valBeq op (Val.int 2) = true
      · -- 23: opcode 2
        rw [if_pos hop] at h4 ⊢
        refine rbind_mono (fun s hs hso => fas_mono hfg' hs hso) ?_ h4 ho4
        intro b s5 h5 ho5
        refine rbind_mono (fun s hs hso => fas_mono hfg' hs hso) ?_ h5 ho5
        intro c s6 h6 ho6
        refine rbind_mono (fun s hs hso => ih hfg' hs hso) ?_ h6 ho6
        intro u s7 h7 ho7
        exact rbind_mono (fun s hs hso => ih hfg' hs hso)
          (fun v s hs hso => ih hfg' hs hso) h7 ho7
      rw [if_neg hop] at h4 ⊢; clear hop
      by_cases hop : valBeq op (Val.int 3) = true
      · -- 24: opcode 3
        rw [if_pos hop] at h4 ⊢
        exact rbind_mono (fun s hs hso => ih hfg' hs hso)
          (fun u s hs _ => hs) h4 ho4
      rw [if_neg hop] at h4 ⊢; clear hop
      by_cases hop : valBeq op (Val.int 4) = true
      · -- 25: opcode 4
        rw [if_pos hop] at h4 ⊢
        exact rbind_mono (fun s hs hso => ih hfg' hs hso)
          (fun u s hs _ => hs) h4 ho4
      rw [if_neg hop] at h4 ⊢; clear hop
      by_cases hop : valBeq op (Val.int 5) = true
      · -- 26: opcode 5
        rw [if_pos hop] at h4 ⊢
        exact rbind_mono (fun s hs hso => ih hfg' hs hso)
          (fun u s hs _ => hs) h4 ho4
      rw [if_neg hop] at h4 ⊢; clear hop
      by_cases hop : valBeq op (Val.int 6) = true
      · -- 28: opcode 6
        rw [if_pos hop] at h4 ⊢
        refine rbind_mono (fun s hs hso => fas_mono hfg' hs hso) ?_ h4 ho4
        intro b s5 h5 ho5
        refine rbind_mono (fun s hs hso => fas_mono hfg' hs hso) ?_ h5 ho5
        intro c s6 h6 ho6
        refine rbind_mono (fun s hs hso => fas_mono hfg' hs hso) ?_ h6 ho6
        intro d s7 h7 ho7
        exact ih hfg' h7 ho7
      rw [if_neg hop] at h4 ⊢; clear hop
      by_cases hop : valBeq op (Val.int 7) = true
      · -- 29: opcode 7
        rw [if_pos hop] at h4 ⊢
        refine rbind_mono (fun s hs hso => fas_mono hfg' hs hso) ?_ h4 ho4
        intro b s5 h5 ho5
        exact rbind_mono (fun s hs hso => fas_mono hfg' hs hso)
          (fun c s hs hso => ih hfg' hs hso) h5 ho5
      rw [if_neg hop] at h4 ⊢; clear hop
      by_cases hop : valBeq op (Val.int 8) = true
      · -- 30: opcode 8
        rw [if_pos hop] at h4 ⊢
        refine rbind_mono (fun s hs hso => fas_mono hfg' hs hso) ?_ h4 ho4
        intro b s5 h5 ho5
        exact rbind_mono (fun s hs hso => fas_mono hfg' hs hso)
          (fun c s hs hso => ih hfg' hs hso) h5 ho5
      rw [if_neg hop] at h4 ⊢; clear hop
      by_cases hop : valBeq op (Val.int 9) = true
      · -- 31: opcode 9
        rw [if_pos hop] at h4 ⊢
        refine rbind_mono (fun s hs hso => fas_mono hfg' hs hso) ?_ h4 ho4
        intro b s5 h5 ho5
        exact rbind_mono (fun s hs hso => fas_mono hfg' hs hso)
          (fun c s hs hso => ih hfg' hs hso) h5 ho5
      rw [if_neg hop] at h4 ⊢; clear hop
      by_cases hop : valBeq op (Val.int 10) = true
      · -- 32/33: opcode 10
        rw [if_pos hop] at h4 ⊢
        refine rbind_mono (fun s hs hso => fas_mono hfg' hs hso) ?_ h4 ho4
        intro hint s5 h5 ho5
        by_cases hh : valBeq (wut hint) YES = true
        · rw [if_pos hh] at h5 ⊢
          exact rbind_mono (fun s hs hso => fas_mono hfg' hs hso)
            (fun c s hs hso => ih hfg' hs hso) h5 ho5
        · rw [if_neg hh] at h5 ⊢
          exact rbind_mono (fun s hs hso => fas_mono hfg' hs hso)
            (fun c s hs hso => ih hfg' hs hso) h5 ho5
      -- fall-through: implicit None
      rw [if_neg hop] at h4 ⊢
      exact h4

/-! ## Big-step evaluation -/

theorem fasCatch_of_ne {noun : Val} {r : Res} (h : r ≠ .error .typeErr) :
    fasCatch noun r = r := by
  cases r with
  | ok v => rfl
  | error e =>
    cases e with
    | typeErr => exact absurd rfl h
    | indexErr => rfl
    | oof => rfl

theorem rbind_fas_ne_typeErr {f : Nat} {n x : Val} {k : Val → Res}
    (hk : ∀ v, k v ≠ .error .typeErr) :
    rbind (fas f n x) k ≠ .error .typeErr := by
  cases h : fas f n x with
  | error e =>
    simp only [rbind_error]
    intro hc
    rw [hc] at h
    exact fas_ne_typeErr f n x h
  | ok v =>
    simp only [rbind_ok]
    exact hk v

/-! ## Unfolding `_fas` at particular addresses -/

theorem fas_one {x : Val} {f : Nat} (hf : 1 ≤ f) (hx : aorc x = .ok x) :
    fas f (.int 1) x = .ok x := by
  obtain ⟨f', rfl⟩ : ∃ f', f = f' + 1 := ⟨f - 1, by omega⟩
  rw [fas, hx]
  simp [fasCatch, valBeq]

theorem fas_two {a b : Val} {f : Nat} (hf : 1 ≤ f)
    (ha : aorc a = .ok a) (hb : aorc b = .ok b) :
    fas f (.int 2) (.tup [a, b]) = .ok a := by
  obtain ⟨f', rfl⟩ : ∃ f', f = f' + 1 := ⟨f - 1, by omega⟩
  rw [fas, aorc_pair ha hb]
  simp [fasCatch, pyFst, valBeq]

theorem fas_three {a b : Val} {f : Nat} (hf : 1 ≤ f)
    (ha : aorc a = .ok a) (hb : aorc b = .ok b) :
    fas f (.int 3) (.tup [a, b]) = .ok b := by
  obtain ⟨f', rfl⟩ : ∃ f', f = f' + 1 := ⟨f - 1, by omega⟩
  rw [fas, aorc_pair ha hb]
  simp [fasCatch, pySnd, valBeq]

/-- The even recursion `15 :: /[(a + a) b]  /[2 /[a b]]` of the source,
as a fuel-indexed equation.  It holds for every fuel because the
`except TypeError` handler can never fire on this branch: `_fas` itself
never raises `TypeError`. -/
theorem fas_even {m : Nat} {x : Val} {f : Nat} (hm : m % 2 = 0) (hm2 : m ≠ 2)
    (hx : aorc x = .ok x) :
    fas (f + 1) (.int m) x =
      rbind (fas f (.int (m / 2)) x) fun inner => fas f (.int 2) inner := by
  rw [fas, hx]
  simp only [rbind_ok]
  rw [if_neg (by simp [valBeq]; omega),
    if_neg (by simp [valBeq]; omega),
    if_neg (by simp [valBeq]; omega)]
  rw [if_pos hm]
  exact fasCatch_of_ne (rbind_fas_ne_typeErr fun v => fas_ne_typeErr _ _ _)

/-- The odd recursion `16 :: /[(a + a + 1) b]  /[3 /[a b]]` of the
source, as a fuel-indexed equation. -/
theorem fas_odd {m : Nat} {x : Val} {f : Nat} (hm : m % 2 = 1) (hm1 : m ≠ 1)
    (hm3 : m ≠ 3) (hx : aorc x = .ok x) :
    fas (f + 1) (.int m) x =
      rbind (fas f (.int ((m - 1) / 2)) x) fun inner => fas f (.int 3) inner := by
  rw [fas, hx]
  simp only [rbind_ok]
  rw [if_neg (by simp [valBeq]; omega),
    if_neg (by simp [valBeq]; omega),
    if_neg (by simp [valBeq]; omega)]
  rw [if_neg (by omega)]
  exact fasCatch_of_ne (rbind_fas_ne_typeErr fun v => fas_ne_typeErr _ _ _)

theorem fas_six {a b c : Val} {f : Nat} (hf : 2 ≤ f)
    (ha : aorc a = .ok a) (hb : aorc b = .ok b) (hc : aorc c = .ok c) :
    fas f (.int 6) (.tup [a, .tup [b, c]]) = .ok b := by
  obtain ⟨f', rfl⟩ : ∃ f', f = f' + 1 := ⟨f - 1, by omega⟩
  rw [fas_even (by norm_num) (by norm_num) (aorc_pair ha (aorc_pair hb hc))]
  rw [show ((6 : Nat) / 2) = 3 from rfl]
  rw [fas_three (by omega) ha (aorc_pair hb hc)]
  simp only [rbind_ok]
  exact fas_two (by omega) hb hc

theorem fas_seven {a b c : Val} {f : Nat} (hf : 2 ≤ f)
    (ha : aorc a = .ok a) (hb : aorc b = .ok b) (hc : aorc c = .ok c) :
    fas f (.int 7) (.tup [a, .tup [b, c]]) = .ok c := by
  obtain ⟨f', rfl⟩ : ∃ f', f = f' + 1 := ⟨f - 1, by omega⟩
  rw [fas_odd (by norm_num) (by norm_num) (by norm_num)
    (aorc_pair ha (aorc_pair hb hc))]
  rw [show (((7 : Nat) - 1) / 2) = 3 from rfl]
  rw [fas_three (by omega) ha (aorc_pair hb hc)]
  simp only [rbind_ok]
  exact fas_three (by omega) hb hc

/-- `_tar` looks at its input only through `_t`: inputs with the same
normalisation reduce identically, fuel for fuel. -/
theorem tar_t_congr {l l' : List Val} (h : t l = t l') :
    ∀ f, tar f (.tup l) = tar f (.tup l')
  | 0 => rfl
  | f + 1 => by
      simp only [tar]
      rw [h]

theorem evals_congr {l l' : List Val} (h : t l = t l') {v : Val} :
    Evals (.tup l) v → Evals (.tup l') v := by
  intro ⟨f, hf⟩
  exact ⟨f, by rw [← tar_t_congr h f]; exact hf⟩

/-! ## Big-step lemmas for single reduction rules -/

/-- Rule 22: `*[a 1 b]` reduces to `b`. -/
theorem evals_quote {s b : Val} (hs : aorc s = .ok s) (hb : aorc b = .ok b) :
    Evals (.tup [s, .tup [.int 1, b]]) b := by
  obtain ⟨F, hF⟩ : ∃ F : Nat, F = 2 := ⟨_, rfl⟩
  refine ⟨F + 1, ?_⟩
  simp only [tar]
  rw [t_pair hs (aorc_pair (aorc_int 1) hb)]
  simp only [rbind_ok, if_true, if_false]
  rw [fas_two (by omega) hs (aorc_pair (aorc_int 1) hb)]
  simp only [rbind_ok, if_true, if_false]
  rw [fas_six (by omega) hs (aorc_int 1) hb]
  simp only [rbind_ok, if_true, if_false]
  rw [fas_seven (by omega) hs (aorc_int 1) hb]
  simp only [rbind_ok, if_true, if_false]
  simp only [wut, YES, NO]
  norm_num [valBeq]

/-- Rule 21: `*[a 0 b]` is `/[b a]`. -/
theorem evals_op0 {s nf v : Val} (hs : aorc s = .ok s) (hnf : aorc nf = .ok nf)
    (h : FasEvals nf s v) : Evals (.tup [s, .tup [.int 0, nf]]) v := by
  obtain ⟨f0, h0⟩ := h
  obtain ⟨F, hF⟩ : ∃ F, F = f0 + 2 := ⟨_, rfl⟩
  refine ⟨F + 1, ?_⟩
  simp only [tar]
  rw [t_pair hs (aorc_pair (aorc_int 0) hnf)]
  simp only [rbind_ok, if_true, if_false]
  rw [fas_two (by omega) hs (aorc_pair (aorc_int 0) hnf)]
  simp only [rbind_ok, if_true, if_false]
  rw [fas_six (by omega) hs (aorc_int 0) hnf]
  simp only [rbind_ok, if_true, if_false]
  rw [fas_seven (by omega) hs (aorc_int 0) hnf]
  simp only [rbind_ok, if_true, if_false]
  simp only [wut, YES, NO]
  norm_num [valBeq]
  exact fas_mono (by omega : f0 ≤ F) h0 (by simp)

/-- Rule 19 (autocons): a cell-headed formula evaluates both halves
against the same subject. -/
theorem evals_autocons {s bf cf x y : Val} (hs : aorc s = .ok s)
    (hbf : aorc bf = .ok bf) (hcf : aorc cf = .ok cf)
    (hcell : valBeq (wut bf) YES = true)
    (h1 : Evals (.tup [s, bf]) x) (h2 : Evals (.tup [s, cf]) y) :
    Evals (.tup [s, .tup [bf, cf]]) (.tup [x, y]) := by
  obtain ⟨f1, h1⟩ := h1
  obtain ⟨f2, h2⟩ := h2
  obtain ⟨F, hF⟩ : ∃ F, F = f1 + f2 + 2 := ⟨_, rfl⟩
  refine ⟨F + 1, ?_⟩
  simp only [tar]
  rw [t_pair hs (aorc_pair hbf hcf)]
  simp only [rbind_ok, if_true, if_false]
  rw [fas_two (by omega) hs (aorc_pair hbf hcf)]
  simp only [rbind_ok, if_true, if_false]
  rw [fas_six (by omega) hs hbf hcf]
  simp only [rbind_ok, if_true, if_false]
  rw [fas_seven (by omega) hs hbf hcf]
  simp only [rbind_ok, if_true, if_false]
  rw [if_pos hcell]
  rw [tar_mono (by omega : f1 ≤ F) h1 (by simp)]
  simp only [rbind_ok, if_true, if_false]
  rw [tar_mono (by omega : f2 ≤ F) h2 (by simp)]
  simp only [rbind_ok, if_true, if_false]

/-- Rule 23: `*[a 2 b c]` is `*[*[a b] *[a c]]`. -/
theorem evals_op2 {s b c u w v : Val} (hs : aorc s = .ok s)
    (hb : aorc b = .ok b) (hc : aorc c = .ok c)
    (h1 : Evals (.tup [s, b]) u) (h2 : Evals (.tup [s, c]) w)
    (h3 : Evals (.tup [u, w]) v) :
    Evals (.tup [s, .tup [.int 2, .tup [b, c]]]) v := by
  obtain ⟨f1, h1⟩ := h1
  obtain ⟨f2, h2⟩ := h2
  obtain ⟨f3, h3⟩ := h3
  obtain ⟨F, hF⟩ : ∃ F, F = f1 + f2 + f3 + 2 := ⟨_, rfl⟩
  refine ⟨F + 1, ?_⟩
  have hobj : aorc (.tup [b, c]) = .ok (.tup [b, c]) := aorc_pair hb hc
  have hfo : aorc (.tup [.int 2, .tup [b, c]]) =
      .ok (.tup [.int 2, .tup [b, c]]) := aorc_pair (aorc_int 2) hobj
  simp only [tar]
  rw [t_pair hs hfo]
  simp only [rbind_ok, if_true, if_false]
  rw [fas_two (by omega) hs hfo]
  simp only [rbind_ok, if_true, if_false]
  rw [fas_six (by omega) hs (aorc_int 2) hobj]
  simp only [rbind_ok, if_true, if_false]
  rw [fas_seven (by omega) hs (aorc_int 2) hobj]
  simp only [rbind_ok, if_true, if_false]
  simp only [wut, YES, NO]
  norm_num [valBeq]
  rw [fas_two (by omega) hb hc]
  simp only [rbind_ok, if_true, if_false]
  rw [fas_three (by omega) hb hc]
  simp only [rbind_ok, if_true, if_false]
  rw [tar_mono (by omega : f1 ≤ F) h1 (by simp)]
  simp only [rbind_ok, if_true, if_false]
  rw [tar_mono (by omega : f2 ≤ F) h2 (by simp)]
  simp only [rbind_ok, if_true, if_false]
  exact tar_mono (by omega : f3 ≤ F) h3 (by simp)

/-- Rule 25: `*[a 4 b]` is `+*[a b]`. -/
theorem evals_op4 {s b u : Val} (hs : aorc s = .ok s) (hb : aorc b = .ok b)
    (h : Evals (.tup [s, b]) u) :
    Evals (.tup [s, .tup [.int 4, b]]) (lus u) := by
  obtain ⟨f1, h1⟩ := h
  obtain ⟨F, hF⟩ : ∃ F, F = f1 + 2 := ⟨_, rfl⟩
  refine ⟨F + 1, ?_⟩
  simp only [tar]
  rw [t_pair hs (aorc_pair (aorc_int 4) hb)]
  simp only [rbind_ok, if_true, if_false]
  rw [fas_two (by omega) hs (aorc_pair (aorc_int 4) hb)]
  simp only [rbind_ok, if_true, if_false]
  rw [fas_six (by omega) hs (aorc_int 4) hb]
  simp only [rbind_ok, if_true, if_false]
  rw [fas_seven (by omega) hs (aorc_int 4) hb]
  simp only [rbind_ok, if_true, if_false]
  simp only [wut, YES, NO]
  norm_num [valBeq]
  rw [tar_mono (by omega : f1 ≤ F) h1 (by simp)]
  simp only [rbind_ok]

/-- Rule 28 as the source implements it: opcode 6 reduces to the literal
macro expansion `*[a 2 [0 1] 2 [1 c d] [1 0] 2 [1 2 3] [1 0] 4 4 b]`. -/
theorem evals_op6_macro {s b c d v : Val} (hs : aorc s = .ok s)
    (hb : aorc b = .ok b) (hc : aorc c = .ok c) (hd : aorc d = .ok d)
    (h : Evals (.tup [s, .int 2, .tup [.int 0, .int 1], .int 2,
      .tup [.int 1, c, d], .tup [.int 1, .int 0], .int 2,
      .tup [.int 1, .int 2, .int 3], .tup [.int 1, .int 0],
      .int 4, .int 4, b]) v) :
    Evals (.tup [s, .tup [.int 6, .tup [b, .tup [c, d]]]]) v := by
  obtain ⟨f1, h1⟩ := h
  obtain ⟨F, hF⟩ : ∃ F, F = f1 + 2 := ⟨_, rfl⟩
  refine ⟨F + 1, ?_⟩
  have hcd : aorc (.tup [c, d]) = .ok (.tup [c, d]) := aorc_pair hc hd
  have hobj : aorc (.tup [b, .tup [c, d]]) =
      .ok (.tup [b, .tup [c, d]]) := aorc_pair hb hcd
  have hfo : aorc (.tup [.int 6, .tup [b, .tup [c, d]]]) =
      .ok (.tup [.int 6, .tup [b, .tup [c, d]]]) := aorc_pair (aorc_int 6) hobj
  simp only [tar]
  rw [t_pair hs hfo]
  simp only [rbind_ok, if_true, if_false]
  rw [fas_two (by omega) hs hfo]
  simp only [rbind_ok, if_true, if_false]
  rw [fas_six (by omega) hs (aorc_int 6) hobj]
  simp only [rbind_ok, if_true, if_false]
  rw [fas_seven (by omega) hs (aorc_int 6) hobj]
  simp only [rbind_ok, if_true, if_false]
  simp only [wut, YES, NO]
  norm_num [valBeq]
  rw [fas_two (by omega) hb hcd]
  simp only [rbind_ok, if_true, if_false]
  rw [fas_six (by omega) hb hc hd]
  simp only [rbind_ok, if_true, if_false]
  rw [fas_seven (by omega) hb hc hd]
  simp only [rbind_ok, if_true, if_false]
  exact tar_mono (by omega : f1 ≤ F) h1 (by simp)

/-- Opcode 6 with a test that yields the true atom `0` reduces to the
`c` branch: the macro expansion computes `[4 4 b] = 2` and selects slot 2
of `[c d]`. -/
theorem evals_six_true {s b c d v : Val} (hs : aorc s = .ok s)
    (hb : aorc b = .ok b) (hc : aorc c = .ok c) (hd : aorc d = .ok d)
    (htest : Evals (.tup [s, b]) (.int 0)) (hcv : Evals (.tup [s, c]) v) :
    Evals (.tup [s, .tup [.int 6, .tup [b, .tup [c, d]]]]) v := by
  -- [1 0] quotes 0
  have q10 : Evals (.tup [s, .tup [.int 1, .int 0]]) (.int 0) :=
    evals_quote hs (aorc_int 0)
  -- [4 4 b] computes 0 + 2 = 2
  have a4 : Evals (.tup [s, .tup [.int 4, b]]) (.int 1) :=
    evals_op4 hs hb htest
  have a44 : Evals (.tup [s, .tup [.int 4, .tup [.int 4, b]]]) (.int 2) :=
    evals_op4 hs (aorc_pair (aorc_int 4) hb) a4
  -- [[1 0] [4 4 b]] autocons: (0, 2)
  have hMFb : aorc (.tup [.int 4, .tup [.int 4, b]]) =
      .ok (.tup [.int 4, .tup [.int 4, b]]) :=
    aorc_pair (aorc_int 4) (aorc_pair (aorc_int 4) hb)
  have hMF : aorc (.tup [.tup [.int 1, .int 0], .tup [.int 4, .tup [.int 4, b]]]) =
      .ok (.tup [.tup [.int 1, .int 0], .tup [.int 4, .tup [.int 4, b]]]) :=
    aorc_pair (aorc_pair (aorc_int 1) (aorc_int 0)) hMFb
  have m : Evals (.tup [s, .tup [.tup [.int 1, .int 0],
      .tup [.int 4, .tup [.int 4, b]]]]) (.tup [.int 0, .int 2]) :=
    evals_autocons hs (aorc_pair (aorc_int 1) (aorc_int 0)) hMFb rfl q10 a44
  -- [1 2 3] quotes (2, 3)
  have t123 : Evals (.tup [s, .tup [.int 1, .tup [.int 2, .int 3]]])
      (.tup [.int 2, .int 3]) :=
    evals_quote hs (aorc_pair (aorc_int 2) (aorc_int 3))
  -- *[(2,3) (0,2)] = 2
  have ksel : Evals (.tup [.tup [.int 2, .int 3], .tup [.int 0, .int 2]])
      (.int 2) :=
    evals_op0 (aorc_pair (aorc_int 2) (aorc_int 3)) (aorc_int 2)
      ⟨2, fas_two (by omega) (aorc_int 2) (aorc_int 3)⟩
  -- K = [2 [1 2 3] [[1 0] [4 4 b]]] evaluates to 2
  have hKF : aorc (.tup [.int 2, .tup [.tup [.int 1, .tup [.int 2, .int 3]],
      .tup [.tup [.int 1, .int 0], .tup [.int 4, .tup [.int 4, b]]]]]) =
      .ok (.tup [.int 2, .tup [.tup [.int 1, .tup [.int 2, .int 3]],
      .tup [.tup [.int 1, .int 0], .tup [.int 4, .tup [.int 4, b]]]]]) :=
    aorc_pair (aorc_int 2) (aorc_pair
      (aorc_pair (aorc_int 1) (aorc_pair (aorc_int 2) (aorc_int 3))) hMF)
  have k : Evals (.tup [s, .tup [.int 2,
      .tup [.tup [.int 1, .tup [.int 2, .int 3]],
        .tup [.tup [.int 1, .int 0], .tup [.int 4, .tup [.int 4, b]]]]]])
      (.int 2) :=
    evals_op2 hs (aorc_pair (aorc_int 1) (aorc_pair (aorc_int 2) (aorc_int 3)))
      hMF t123 m ksel
  -- J = [[1 0] K] autocons: (0, 2)
  have j : Evals (.tup [s, .tup [.tup [.int 1, .int 0],
      .tup [.int 2, .tup [.tup [.int 1, .tup [.int 2, .int 3]],
        .tup [.tup [.int 1, .int 0], .tup [.int 4, .tup [.int 4, b]]]]]]])
      (.tup [.int 0, .int 2]) :=
    evals_autocons hs (aorc_pair (aorc_int 1) (aorc_int 0)) hKF rfl q10 k
  -- [1 c d] quotes (c, d)
  have t1cd : Evals (.tup [s, .tup [.int 1, .tup [c, d]]]) (.tup [c, d]) :=
    evals_quote hs (aorc_pair hc hd)
  -- *[(c,d) (0,2)] = c
  have isel : Evals (.tup [.tup [c, d], .tup [.int 0, .int 2]]) c :=
    evals_op0 (aorc_pair hc hd) (aorc_int 2) ⟨2, fas_two (by omega) hc hd⟩
  -- I = [2 [1 c d] J] evaluates to c
  have i : Evals (.tup [s, .tup [.int 2, .tup [.tup [.int 1, .tup [c, d]],
      .tup [.tup [.int 1, .int 0],
      .tup [.int 2, .tup [.tup [.int 1, .tup [.int 2, .int 3]],
        .tup [.tup [.int 1, .int 0],
          .tup [.int 4, .tup [.int 4, b]]]]]]]]]) c :=
    evals_op2 hs (aorc_pair (aorc_int 1) (aorc_pair hc hd))
      (aorc_pair (aorc_pair (aorc_int 1) (aorc_int 0)) hKF) t1cd j isel
  -- [0 1] reproduces the subject
  have p01 : Evals (.tup [s, .tup [.int 0, .int 1]]) s :=
    evals_op0 hs (aorc_int 1) ⟨1, fas_one (by omega) hs⟩
  -- top: [2 [0 1] I] = *[s c] = v
  have top : Evals (.tup [s, .tup [.int 2, .tup [.tup [.int 0, .int 1],
      .tup [.int 2, .tup [.tup [.int 1, .tup [c, d]],
      .tup [.tup [.int 1, .int 0],
      .tup [.int 2, .tup [.tup [.int 1, .tup [.int 2, .int 3]],
        .tup [.tup [.int 1, .int 0],
          .tup [.int 4, .tup [.int 4, b]]]]]]]]]]]) v :=
    evals_op2 hs (aorc_pair (aorc_int 0) (aorc_int 1))
      (aorc_pair (aorc_int 2) (aorc_pair
        (aorc_pair (aorc_int 1) (aorc_pair hc hd))
        (aorc_pair (aorc_pair (aorc_int 1) (aorc_int 0)) hKF))) p01 i hcv
  -- the nested form normalises like the flat macro tuple the source builds
  apply evals_op6_macro hs hb hc hd
  apply evals_congr ?_ top
  simp [t, aorc, hs, hb, hc, hd]


/-- Opcode 6 with a test that yields the false atom `1` reduces to the
`d` branch: the macro expansion computes `[4 4 b] = 3` and selects slot 3
of `[c d]`. -/
theorem evals_six_false {s b c d v : Val} (hs : aorc s = .ok s)
    (hb : aorc b = .ok b) (hc : aorc c = .ok c) (hd : aorc d = .ok d)
    (htest : Evals (.tup [s, b]) (.int 1)) (hdv : Evals (.tup [s, d]) v) :
    Evals (.tup [s, .tup [.int 6, .tup [b, .tup [c, d]]]]) v := by
  have q10 : Evals (.tup [s, .tup [.int 1, .int 0]]) (.int 0) :=
    evals_quote hs (aorc_int 0)
  have a4 : Evals (.tup [s, .tup [.int 4, b]]) (.int 2) :=
    evals_op4 hs hb htest
  have a44 : Evals (.tup [s, .tup [.int 4, .tup [.int 4, b]]]) (.int 3) :=
    evals_op4 hs (aorc_pair (aorc_int 4) hb) a4
  have hMFb : aorc (.tup [.int 4, .tup [.int 4, b]]) =
      .ok (.tup [.int 4, .tup [.int 4, b]]) :=
    aorc_pair (aorc_int 4) (aorc_pair (aorc_int 4) hb)
  have hMF : aorc (.tup [.tup [.int 1, .int 0], .tup [.int 4, .tup [.int 4, b]]]) =
      .ok (.tup [.tup [.int 1, .int 0], .tup [.int 4, .tup [.int 4, b]]]) :=
    aorc_pair (aorc_pair (aorc_int 1) (aorc_int 0)) hMFb
  have m : Evals (.tup [s, .tup [.tup [.int 1, .int 0],
      .tup [.int 4, .tup [.int 4, b]]]]) (.tup [.int 0, .int 3]) :=
    evals_autocons hs (aorc_pair (aorc_int 1) (aorc_int 0)) hMFb rfl q10 a44
  have t123 : Evals (.tup [s, .tup [.int 1, .tup [.int 2, .int 3]]])
      (.tup [.int 2, .int 3]) :=
    evals_quote hs (aorc_pair (aorc_int 2) (aorc_int 3))
  have ksel : Evals (.tup [.tup [.int 2, .int 3], .tup [.int 0, .int 3]])
      (.int 3) :=
    evals_op0 (aorc_pair (aorc_int 2) (aorc_int 3)) (aorc_int 3)
      ⟨2, fas_three (by omega) (aorc_int 2) (aorc_int 3)⟩
  have hKF : aorc (.tup [.int 2, .tup [.tup [.int 1, .tup [.int 2, .int 3]],
      .tup [.tup [.int 1, .int 0], .tup [.int 4, .tup [.int 4, b]]]]]) =
      .ok (.tup [.int 2, .tup [.tup [.int 1, .tup [.int 2, .int 3]],
      .tup [.tup [.int 1, .int 0], .tup [.int 4, .tup [.int 4, b]]]]]) :=
    aorc_pair (aorc_int 2) (aorc_pair
      (aorc_pair (aorc_int 1) (aorc_pair (aorc_int 2) (aorc_int 3))) hMF)
  have k : Evals (.tup [s, .tup [.int 2,
      .tup [.tup [.int 1, .tup [.int 2, .int 3]],
        .tup [.tup [.int 1, .int 0], .tup [.int 4, .tup [.int 4, b]]]]]])
      (.int 3) :=
    evals_op2 hs (aorc_pair (aorc_int 1) (aorc_pair (aorc_int 2) (aorc_int 3)))
      hMF t123 m ksel
  have j : Evals (.tup [s, .tup [.tup [.int 1, .int 0],
      .tup [.int 2, .tup [.tup [.int 1, .tup [.int 2, .int 3]],
        .tup [.tup [.int 1, .int 0], .tup [.int 4, .tup [.int 4, b]]]]]]])
      (.tup [.int 0, .int 3]) :=
    evals_autocons hs (aorc_pair (aorc_int 1) (aorc_int 0)) hKF rfl q10 k
  have t1cd : Evals (.tup [s, .tup [.int 1, .tup [c, d]]]) (.tup [c, d]) :=
    evals_quote hs (aorc_pair hc hd)
  have isel : Evals (.tup [.tup [c, d], .tup [.int 0, .int 3]]) d :=
    evals_op0 (aorc_pair hc hd) (aorc_int 3) ⟨2, fas_three (by omega) hc hd⟩
  have i : Evals (.tup [s, .tup [.int 2, .tup [.tup [.int 1, .tup [c, d]],
      .tup [.tup [.int 1, .int 0],
      .tup [.int 2, .tup [.tup [.int 1, .tup [.int 2, .int 3]],
        .tup [.tup [.int 1, .int 0],
          .tup [.int 4, .tup [.int 4, b]]]]]]]]]) d :=
    evals_op2 hs (aorc_pair (aorc_int 1) (aorc_pair hc hd))
      (aorc_pair (aorc_pair (aorc_int 1) (aorc_int 0)) hKF) t1cd j isel
  have p01 : Evals (.tup [s, .tup [.int 0, .int 1]]) s :=
    evals_op0 hs (aorc_int 1) ⟨1, fas_one (by omega) hs⟩
  have top : Evals (.tup [s, .tup [.int 2, .tup [.tup [.int 0, .int 1],
      .tup [.int 2, .tup [.tup [.int 1, .tup [c, d]],
      .tup [.tup [.int 1, .int 0],
      .tup [.int 2, .tup [.tup [.int 1, .tup [.int 2, .int 3]],
        .tup [.tup [.int 1, .int 0],
          .tup [.int 4, .tup [.int 4, b]]]]]]]]]]]) v :=
    evals_op2 hs (aorc_pair (aorc_int 0) (aorc_int 1))
      (aorc_pair (aorc_int 2) (aorc_pair
        (aorc_pair (aorc_int 1) (aorc_pair hc hd))
        (aorc_pair (aorc_pair (aorc_int 1) (aorc_int 0)) hKF))) p01 i hdv
  apply evals_op6_macro hs hb hc hd
  apply evals_congr ?_ top
  simp [t, aorc, hs, hb, hc, hd]


/-! ## The output of `_t` is properly structured -/

mutual
theorem aorc_ok_fix : ∀ {v w : Val}, aorc v = .ok w → aorc w = .ok w
  | .int n, w => fun h => by
      rw [show aorc (.int n) = .ok (.int n) from rfl] at h
      cases h
      rfl
  | .none, w => fun h => by
      rw [show aorc Val.none = .ok Val.none from rfl] at h
      cases h
      rfl
  | .tup l, w => fun h => by
      rw [show aorc (.tup l) = t l from rfl] at h
      exact t_ok_fix h

theorem t_ok_fix : ∀ {l : List Val} {w : Val}, t l = .ok w → aorc w = .ok w
  | [], w => fun h => by rw [show t ([] : List Val) = .error .indexErr from rfl] at h; cases h
  | [a], w => fun h => by
      rw [show t [a] = rbind (aorc a) fun a' => .ok (.tup [a', .int 0]) from rfl] at h
      cases ha : aorc a with
      | error e => rw [ha, rbind_error] at h; cases h
      | ok a' =>
        rw [ha, rbind_ok] at h
        cases h
        exact aorc_pair (aorc_ok_fix ha) (aorc_int 0)
  | [a, b], w => fun h => by
      rw [show t [a, b] =
        (rbind (aorc a) fun a' => rbind (aorc b) fun b' => .ok (.tup [a', b']))
        from rfl] at h
      cases ha : aorc a with
      | error e => rw [ha, rbind_error] at h; cases h
      | ok a' =>
        rw [ha, rbind_ok] at h
        cases hb : aorc b with
        | error e => rw [hb, rbind_error] at h; cases h
        | ok b' =>
          rw [hb, rbind_ok] at h
          cases h
          exact aorc_pair (aorc_ok_fix ha) (aorc_ok_fix hb)
  | a :: b :: c :: rest, w => fun h => by
      rw [show t (a :: b :: c :: rest) =
        (rbind (aorc a) fun a' =>
          rbind (t (b :: c :: rest)) fun r => .ok (.tup [a', r])) from rfl] at h
      cases ha : aorc a with
      | error e => rw [ha, rbind_error] at h; cases h
      | ok a' =>
        rw [ha, rbind_ok] at h
        cases hr : t (b :: c :: rest) with
        | error e => rw [hr, rbind_error] at h; cases h
        | ok r =>
          rw [hr, rbind_ok] at h
          cases h
          exact aorc_pair (aorc_ok_fix ha) (t_ok_fix hr)
end

/-- A successful `_t` always returns a 2-tuple. -/
theorem t_ok_pair {l : List Val} {w : Val} (h : t l = .ok w) :
    ∃ x y, w = .tup [x, y] := by
  match l with
  | [] => rw [show t ([] : List Val) = .error .indexErr from rfl] at h; cases h
  | [a] =>
    rw [show t [a] = rbind (aorc a) fun a' => .ok (.tup [a', .int 0]) from rfl] at h
    cases ha : aorc a with
    | error e => rw [ha, rbind_error] at h; cases h
    | ok a' => rw [ha, rbind_ok] at h; cases h; exact ⟨a', .int 0, rfl⟩
  | [a, b] =>
    rw [show t [a, b] =
      (rbind (aorc a) fun a' => rbind (aorc b) fun b' => .ok (.tup [a', b']))
      from rfl] at h
    cases ha : aorc a with
    | error e => rw [ha, rbind_error] at h; cases h
    | ok a' =>
      rw [ha, rbind_ok] at h
      cases hb : aorc b with
      | error e => rw [hb, rbind_error] at h; cases h
      | ok b' => rw [hb, rbind_ok] at h; cases h; exact ⟨a', b', rfl⟩
  | a :: b :: c :: rest =>
    rw [show t (a :: b :: c :: rest) =
      (rbind (aorc a) fun a' =>
        rbind (t (b :: c :: rest)) fun r => .ok (.tup [a', r])) from rfl] at h
    cases ha : aorc a with
    | error e => rw [ha, rbind_error] at h; cases h
    | ok a' =>
      rw [ha, rbind_ok] at h
      cases hr : t (b :: c :: rest) with
      | error e => rw [hr, rbind_error] at h; cases h
      | ok r => rw [hr, rbind_ok] at h; cases h; exact ⟨a', r, rfl⟩

/-- A successful `_t` output re-normalises to itself: its tuple content
passes through `_t` unchanged. -/
theorem t_ok_shape {l : List Val} {N : Val} (h : t l = .ok N) :
    ∃ l', N = .tup l' ∧ t l' = .ok N := by
  obtain ⟨x, y, rfl⟩ := t_ok_pair h
  have hfix : aorc (.tup [x, y]) = .ok (.tup [x, y]) := t_ok_fix h
  exact ⟨[x, y], rfl, by rw [show aorc (.tup [x, y]) = t [x, y] from rfl] at hfix; exact hfix⟩


/-! ## Totality of the construction helper on good arguments -/

mutual
theorem aorc_good_total : ∀ v : Val, GoodArg v → ∃ w, aorc v = .ok w
  | .int n, _ => ⟨.int n, rfl⟩
  | .none, h => by cases h
  | .tup l, h => by
      cases h with
      | tup hne hall =>
        obtain ⟨w, hw⟩ := t_good_total l hne hall
        exact ⟨w, by rw [show aorc (.tup l) = t l from rfl]; exact hw⟩

theorem t_good_total : ∀ l : List Val, l ≠ [] → (∀ v ∈ l, GoodArg v) →
    ∃ w, t l = .ok w
  | [], hne, _ => absurd rfl hne
  | [a], _, hall => by
      obtain ⟨w, hw⟩ := aorc_good_total a (hall a (List.mem_singleton.mpr rfl))
      exact ⟨.tup [w, .int 0], by
        rw [show t [a] = rbind (aorc a) fun a' => .ok (.tup [a', .int 0]) from rfl,
          hw, rbind_ok]⟩
  | [a, b], _, hall => by
      obtain ⟨wa, hwa⟩ := aorc_good_total a (hall a (by simp))
      obtain ⟨wb, hwb⟩ := aorc_good_total b (hall b (by simp))
      exact ⟨.tup [wa, wb], by
        rw [show t [a, b] =
          (rbind (aorc a) fun a' => rbind (aorc b) fun b' => .ok (.tup [a', b']))
          from rfl, hwa, rbind_ok, hwb, rbind_ok]⟩
  | a :: b :: c :: rest, _, hall => by
      obtain ⟨wa, hwa⟩ := aorc_good_total a (hall a (by simp))
      obtain ⟨wr, hwr⟩ := t_good_total (b :: c :: rest) (by simp)
        (fun v hv => hall v (List.mem_cons_of_mem a hv))
      exact ⟨.tup [wa, wr], by
        rw [show t (a :: b :: c :: rest) =
          (rbind (aorc a) fun a' =>
            rbind (t (b :: c :: rest)) fun r => .ok (.tup [a', r])) from rfl,
          hwa, rbind_ok, hwr, rbind_ok]⟩
end

/-! ## Claims -/

/-- C5 (amended): `_wut` returns the true atom `0` for a cell and the
false atom `1` for an atom (the source's doctest behaviour, matching
reductions 4-5 of the quoted Nock spec); it is a total function.  The
claim as stated has the two truth atoms swapped. -/
theorem c5_is_cell_polarity :
    (∀ a b : Val, wut (.tup [a, b]) = .int 0)
    ∧ (∀ n : Nat, wut (.int n) = .int 1)
    ∧ YES = .int 0 ∧ NO = .int 1 :=
  ⟨fun _ _ => rfl, fun _ => rfl, rfl, rfl⟩

/-- C5 counterexample: on the cell `(1, 2)` the cell test returns `0`,
not the claimed false atom `1`, and on the atom `1` it returns `1`, not
the claimed true atom `0`. -/
theorem c5_counterexample :
    wut (.tup [.int 1, .int 2]) ≠ .int 1 ∧ wut (.int 1) ≠ .int 0 := by
  constructor
  · intro h
    simp [wut, YES] at h
  · intro h
    simp [wut, NO] at h

/-- C8: `_lus` is total: it increments an atom and returns a cell
unchanged (the documented non-crash leniency). -/
theorem c8_increment_total :
    (∀ n : Nat, lus (.int n) = .int (n + 1))
    ∧ (∀ l : List Val, lus (.tup l) = .tup l) :=
  ⟨fun _ => rfl, fun _ => rfl⟩

/-- C9: `_tis` equality is reflexive and structural: `=[x x]` is the true
atom `0` for every noun `x`, `=[0 1]` is the false atom `1`, and in
general `=[a b]` is `0` exactly when `a` and `b` are structurally equal
values (atoms equal as integers, cells equal component-wise, atoms never
equal to cells), else `1`. -/
theorem c9_equality_structural :
    (∀ x : Val, tis (.tup [x, x]) = .ok (.int 0))
    ∧ tis (.tup [.int 0, .int 1]) = .ok (.int 1)
    ∧ (∀ a b : Val, tis (.tup [a, b]) = .ok (.int 0) ↔ a = b)
    ∧ (∀ a b : Val, a ≠ b → tis (.tup [a, b]) = .ok (.int 1))
    ∧ (∀ m n : Nat, Val.int m = Val.int n ↔ m = n)
    ∧ (∀ a b c d : Val, Val.tup [a, b] = Val.tup [c, d] ↔ a = c ∧ b = d)
    ∧ (∀ (n : Nat) (c d : Val), Val.int n ≠ Val.tup [c, d]) := by
  have key : ∀ a b : Val,
      tis (.tup [a, b]) = .ok (if valBeq a b then YES else NO) :=
    fun _ _ => rfl
  refine ⟨?_, rfl, ?_, ?_, ?_, ?_, ?_⟩
  · intro x
    rw [key, (valBeq_iff x x).mpr rfl]
    simp [YES]
  · intro a b
    constructor
    · intro h
      rw [key] at h
      cases hv : valBeq a b with
      | true => exact (valBeq_iff a b).mp hv
      | false =>
        rw [hv] at h
        simp [NO, YES] at h
    · intro h
      subst h
      rw [key, (valBeq_iff a a).mpr rfl]
      simp [YES]
  · intro a b hne
    have hv : valBeq a b = false := by
      cases hv : valBeq a b with
      | true => exact absurd ((valBeq_iff a b).mp hv) hne
      | false => rfl
    rw [key, hv]
    simp [NO]
  · intro m n
    simp
  · intro a b c d
    simp
  · intro n c d h
    exact Val.noConfusion h

/-- C9 witness: the structural-equality theorem applied at the concrete
unequal atoms `3` and `4`. -/
theorem c9_witness : tis (.tup [.int 3, .int 4]) = .ok (.int 1) :=
  c9_equality_structural.2.2.2.1 (.int 3) (.int 4) (by simp)

/-- C10: `_tar` normalises its input through `_t` before dispatch:
whenever a flat input constructs to the noun `N`, evaluating the input
and evaluating `N` agree fuel for fuel; in particular
`reduce((a, b, c)) = reduce((a, (b, c)))`. -/
theorem c10_input_normalisation :
    (∀ (l : List Val) (N : Val) (f : Nat), t l = .ok N →
      tar f (.tup l) = tar f N)
    ∧ (∀ (f : Nat) (a b c : Val),
      tar f (.tup [a, b, c]) = tar f (.tup [a, .tup [b, c]])) := by
  constructor
  · intro l N f h
    obtain ⟨l', rfl, hl'⟩ := t_ok_shape h
    exact tar_t_congr (h.trans hl'.symm) f
  · intro f a b c
    exact tar_t_congr (show t [a, b, c] = t [a, .tup [b, c]] from rfl) f

/-- C10 witness: the normalisation theorem applied to the flat input
`(42, 0, 1)`, whose construction is `(42, (0, 1))`. -/
theorem c10_witness :
    tar 9 (.tup [.int 42, .int 0, .int 1]) =
      tar 9 (.tup [.int 42, .tup [.int 0, .int 1]]) :=
  c10_input_normalisation.1 [.int 42, .int 0, .int 1]
    (.tup [.int 42, .tup [.int 0, .int 1]]) 9 rfl

/-- C7: the construction helper is total over (hereditarily non-empty)
finite non-empty sequences and right-associates: `[a]` constructs
`(a, 0)`, `[a b]` constructs `(a, b)`, a longer sequence constructs
`(a, construction-of-the-rest)`, and a raw iterable element is itself
recursively constructed (`_aorc` of a tuple is `_t` of its content). -/
theorem c7_construction_total :
    (∀ l : List Val, l ≠ [] → (∀ v ∈ l, GoodArg v) → ∃ w, t l = .ok w)
    ∧ (∀ a a' : Val, aorc a = .ok a' → t [a] = .ok (.tup [a', .int 0]))
    ∧ (∀ a b a' b' : Val, aorc a = .ok a' → aorc b = .ok b' →
        t [a, b] = .ok (.tup [a', b']))
    ∧ (∀ (a b c : Val) (rest : List Val) (a' w : Val), aorc a = .ok a' →
        t (b :: c :: rest) = .ok w →
        t (a :: b :: c :: rest) = .ok (.tup [a', w]))
    ∧ (∀ l : List Val, aorc (.tup l) = t l) := by
  refine ⟨t_good_total, ?_, ?_, ?_, fun _ => rfl⟩
  · intro a a' ha
    rw [show t [a] = rbind (aorc a) fun x => .ok (.tup [x, .int 0]) from rfl,
      ha, rbind_ok]
  · intro a b a' b' ha hb
    rw [show t [a, b] =
      (rbind (aorc a) fun x => rbind (aorc b) fun y => .ok (.tup [x, y]))
      from rfl, ha, rbind_ok, hb, rbind_ok]
  · intro a b c rest a' w ha hw
    rw [show t (a :: b :: c :: rest) =
      (rbind (aorc a) fun x =>
        rbind (t (b :: c :: rest)) fun r => .ok (.tup [x, r])) from rfl,
      ha, rbind_ok, hw, rbind_ok]

/-- C7 witness: totality at the singleton `[5]` and the length-1
trailing-zero shape at `[9]`. -/
theorem c7_witness :
    (∃ w, t [.int 5] = .ok w) ∧ t [.int 9] = .ok (.tup [.int 9, .int 0]) :=
  ⟨c7_construction_total.1 [.int 5] (by simp)
      (fun v hv => by rw [List.mem_singleton.mp hv]; exact GoodArg.int 5),
    c7_construction_total.2.1 (.int 9) (.int 9) rfl⟩


/-- C1: the rule the source prints for the cell-hint case of opcode 10
(`32 :: *[a 10 [b c] d]  *[a 8 c 7 [0 3] d]`) requires the result
`*[a d]`, here `*[42 [1 33]] = 33`.  The implementation instead takes the
hint's head rather than its tail and re-evaluates the whole object, so
the pair `((1 22), 33)` comes back: the formula `((1 (1 22)) (1 33))` is
re-run as an autocons.  The first conjunct is what the code returns, the
second what its own rule table requires, the third that they differ. -/
theorem c1_opcode10_cell_hint_bug :
    tar 40 (.tup [.int 42, .tup [.int 10,
        .tup [.tup [.int 1, .tup [.int 1, .int 22]], .tup [.int 1, .int 33]]]])
      = .ok (.tup [.tup [.int 1, .int 22], .int 33])
    ∧ tar 40 (.tup [.int 42, .tup [.int 1, .int 33]]) = .ok (.int 33)
    ∧ Val.tup [Val.tup [Val.int 1, Val.int 22], Val.int 33] ≠ Val.int 33 :=
  ⟨rfl, rfl, fun h => Val.noConfusion h⟩

/-- C2 (amended): for every opcode atom `k ≥ 11` the dispatch chain of
`_tar` matches no branch and the function returns Python `None` — a
value distinguishable from every noun, but a normal return, not a
signalled failure — regardless of the subject and of the rest of the
formula. -/
theorem c2_invalid_opcode_returns_none :
    ∀ (k : Nat) (s r : Val) (f : Nat), 11 ≤ k → IsProper s → IsProper r →
      2 ≤ f → tar (f + 1) (.tup [s, .tup [.int k, r]]) = .ok .none := by
  intro k s r f hk hs hr hf
  have hs' := aorc_proper hs
  have hr' := aorc_proper hr
  have hfo : aorc (.tup [.int k, r]) = .ok (.tup [.int k, r]) :=
    aorc_pair (aorc_int k) hr'
  simp only [tar]
  rw [t_pair hs' hfo]
  simp only [rbind_ok]
  rw [fas_two (by omega) hs' hfo]
  simp only [rbind_ok]
  rw [fas_six (by omega) hs' (aorc_int k) hr']
  simp only [rbind_ok]
  rw [fas_seven (by omega) hs' (aorc_int k) hr']
  simp only [rbind_ok]
  rw [show wut (.int k) = NO from rfl]
  rw [if_neg (by decide)]
  rw [if_neg (by simp [valBeq]; omega), if_neg (by simp [valBeq]; omega),
    if_neg (by simp [valBeq]; omega), if_neg (by simp [valBeq]; omega),
    if_neg (by simp [valBeq]; omega), if_neg (by simp [valBeq]; omega),
    if_neg (by simp [valBeq]; omega), if_neg (by simp [valBeq]; omega),
    if_neg (by simp [valBeq]; omega), if_neg (by simp [valBeq]; omega),
    if_neg (by simp [valBeq]; omega)]

/-- C2 witness: the invalid-opcode theorem applied to `*[42 [11 5]]`. -/
theorem c2_witness : tar 3 (.tup [.int 42, .tup [.int 11, .int 5]]) = .ok .none :=
  c2_invalid_opcode_returns_none 11 (.int 42) (.int 5) 2 (by decide)
    (IsProper.int 42) (IsProper.int 5) (by decide)

/-- C2 counterexample: on `*[42 [11 5]]` the evaluator returns normally
(with the non-noun `None`); it does not signal any failure, contrary to
the claim that an invalid opcode always crashes. -/
theorem c2_counterexample :
    tar 10 (.tup [.int 42, .tup [.int 11, .int 5]]) = .ok .none := rfl

/-- C3 (amended): addressing into an atom does not crash: for every
address `n ≥ 2` and every atom `a`, `_fas` returns the atom unchanged
(the `except TypeError: return noun` handler fires on `noun[0]` /
`noun[1]`) — the observable-compatibility deviation the spec itself
documents, not the claimed deterministic failure. -/
theorem c3_slot_into_atom_returns_atom :
    ∀ (n a f : Nat), 2 ≤ n → n ≤ f →
      fas f (.int n) (.int a) = .ok (.int a) := by
  intro n a f
  induction f generalizing n with
  | zero =>
    intro h2 h0
    omega
  | succ f ih =>
    intro h2 hle
    by_cases hn2 : n = 2
    · subst hn2
      rw [fas, aorc_int]
      simp [pyFst, fasCatch, valBeq]
    by_cases hn3 : n = 3
    · subst hn3
      rw [fas, aorc_int]
      simp [pySnd, fasCatch, valBeq]
    rcases Nat.even_or_odd n with he | ho
    · have hm : n % 2 = 0 := Nat.even_iff.mp he
      rw [fas_even hm hn2 (aorc_int a)]
      rw [ih (n / 2) (by omega) (by omega)]
      simp only [rbind_ok]
      exact ih 2 (by omega) (by omega)
    · have hm : n % 2 = 1 := Nat.odd_iff.mp ho
      rw [fas_odd hm (by omega) hn3 (aorc_int a)]
      rw [ih ((n - 1) / 2) (by omega) (by omega)]
      simp only [rbind_ok]
      exact ih 3 (by omega) (by omega)

/-- C3 witness: the slot-into-atom theorem applied at `/[6 7]`. -/
theorem c3_witness : fas 9 (.int 6) (.int 7) = .ok (.int 7) :=
  c3_slot_into_atom_returns_atom 6 7 9 (by decide) (by decide)

/-- C3 counterexample: `/[2 5]` — taking the head of the atom `5` —
returns the atom `5` instead of signalling the claimed
"address into atom" failure. -/
theorem c3_counterexample : fas 3 (.int 2) (.int 5) = .ok (.int 5) := rfl

/-- C6: slot addressing follows the binary-path algorithm: address 1 is
the identity, 2 and 3 take head and tail of a cell, an even address
`n > 2` is `slot(2, slot(n / 2, ·))`, an odd address `n > 3` is
`slot(3, slot((n - 1) / 2, ·))`; `/[7 [[4 5] [6 14 15]]] = [14 15]`, and
on `(a, (b, (c, d)))` slots 2, 6, 14, 15 give `a`, `b`, `c`, `d`. -/
theorem c6_slot_binary_path :
    (∀ (x : Val) (f : Nat), IsProper x → 1 ≤ f → fas f (.int 1) x = .ok x)
    ∧ (∀ (a b : Val) (f : Nat), IsProper a → IsProper b → 1 ≤ f →
        fas f (.int 2) (.tup [a, b]) = .ok a ∧
        fas f (.int 3) (.tup [a, b]) = .ok b)
    ∧ (∀ (n : Nat) (x : Val) (f : Nat), IsProper x → n % 2 = 0 → 2 < n →
        fas (f + 1) (.int n) x =
          rbind (fas f (.int (n / 2)) x) fun u => fas f (.int 2) u)
    ∧ (∀ (n : Nat) (x : Val) (f : Nat), IsProper x → n % 2 = 1 → 3 < n →
        fas (f + 1) (.int n) x =
          rbind (fas f (.int ((n - 1) / 2)) x) fun u => fas f (.int 3) u)
    ∧ fas 9 (.int 7)
        (.tup [.tup [.int 4, .int 5], .tup [.int 6, .int 14, .int 15]])
        = .ok (.tup [.int 14, .int 15])
    ∧ (∀ (a b c d : Val) (f : Nat), IsProper a → IsProper b → IsProper c →
        IsProper d → 3 ≤ f →
        fas f (.int 2) (.tup [a, .tup [b, .tup [c, d]]]) = .ok a ∧
        fas f (.int 6) (.tup [a, .tup [b, .tup [c, d]]]) = .ok b ∧
        fas f (.int 14) (.tup [a, .tup [b, .tup [c, d]]]) = .ok c ∧
        fas f (.int 15) (.tup [a, .tup [b, .tup [c, d]]]) = .ok d) := by
  refine ⟨?_, ?_, ?_, ?_, rfl, ?_⟩
  · intro x f hx hf
    exact fas_one hf (aorc_proper hx)
  · intro a b f ha hb hf
    exact ⟨fas_two hf (aorc_proper ha) (aorc_proper hb),
      fas_three hf (aorc_proper ha) (aorc_proper hb)⟩
  · intro n x f hx hm hn
    exact fas_even hm (by omega) (aorc_proper hx)
  · intro n x f hx hm hn
    exact fas_odd hm (by omega) (by omega) (aorc_proper hx)
  · intro a b c d f ha hb hc hd hf
    have ha' := aorc_proper ha
    have hb' := aorc_proper hb
    have hc' := aorc_proper hc
    have hd' := aorc_proper hd
    have hcd := aorc_pair hc' hd'
    have hbcd := aorc_pair hb' hcd
    refine ⟨fas_two (by omega) ha' hbcd, fas_six (by omega) ha' hb' hcd,
      ?_, ?_⟩
    · obtain ⟨f', rfl⟩ : ∃ f', f = f' + 1 := ⟨f - 1, by omega⟩
      rw [fas_even (by norm_num) (by norm_num) (aorc_pair ha' hbcd)]
      rw [show ((14 : Nat) / 2) = 7 from rfl]
      rw [fas_seven (by omega) ha' hb' hcd]
      simp only [rbind_ok]
      exact fas_two (by omega) hc' hd'
    · obtain ⟨f', rfl⟩ : ∃ f', f = f' + 1 := ⟨f - 1, by omega⟩
      rw [fas_odd (by norm_num) (by norm_num) (by norm_num)
        (aorc_pair ha' hbcd)]
      rw [show (((15 : Nat) - 1) / 2) = 7 from rfl]
      rw [fas_seven (by omega) ha' hb' hcd]
      simp only [rbind_ok]
      exact fas_three (by omega) hc' hd'

/-- C6 witness: the slot theorem applied at concrete nouns: identity at
`/[1 77]` and slot 14 of `(20, (21, (22, 23)))`. -/
theorem c6_witness :
    fas 5 (.int 1) (.int 77) = .ok (.int 77) ∧
    fas 9 (.int 14) (.tup [.int 20, .tup [.int 21, .tup [.int 22, .int 23]]])
      = .ok (.int 22) :=
  ⟨c6_slot_binary_path.1 (.int 77) 5 (IsProper.int 77) (by decide),
    (c6_slot_binary_path.2.2.2.2.2 (.int 20) (.int 21) (.int 22) (.int 23) 9
      (IsProper.int 20) (IsProper.int 21) (IsProper.int 22) (IsProper.int 23)
      (by decide)).2.2.1⟩

/-- C4 (amended): opcode 6 is if-then-else on a boolean test: if the test
yields `0` the result is that of the `c` branch, if `1` that of the `d`
branch — and `reduce((42,(6,(1,0),(4,0,1),(1,233)))) = 43`, with test
`(1,1)` it is `233`.  A non-boolean test does NOT crash: because the
lenient slot operator turns the macro's out-of-range address into a
defined result, the test `(1,7)` also selects the `c` branch and the
example yields `43`. -/
theorem c4_opcode6_if_then_else :
    (∀ s b c d v : Val, IsProper s → IsProper b → IsProper c → IsProper d →
        Evals (.tup [s, b]) (.int 0) → Evals (.tup [s, c]) v →
        Evals (.tup [s, .tup [.int 6, b, c, d]]) v)
    ∧ (∀ s b c d v : Val, IsProper s → IsProper b → IsProper c → IsProper d →
        Evals (.tup [s, b]) (.int 1) → Evals (.tup [s, d]) v →
        Evals (.tup [s, .tup [.int 6, b, c, d]]) v)
    ∧ tar 30 (.tup [.int 42, .tup [.int 6, .tup [.int 1, .int 0],
        .tup [.int 4, .int 0, .int 1], .tup [.int 1, .int 233]]])
        = .ok (.int 43)
    ∧ tar 30 (.tup [.int 42, .tup [.int 6, .tup [.int 1, .int 1],
        .tup [.int 4, .int 0, .int 1], .tup [.int 1, .int 233]]])
        = .ok (.int 233)
    ∧ tar 80 (.tup [.int 42, .tup [.int 6, .tup [.int 1, .int 7],
        .tup [.int 4, .int 0, .int 1], .tup [.int 1, .int 233]]])
        = .ok (.int 43) := by
  refine ⟨?_, ?_, rfl, rfl, rfl⟩
  · intro s b c d v hs hb hc hd ht hcv
    have hs' := aorc_proper hs
    have hb' := aorc_proper hb
    have hc' := aorc_proper hc
    have hd' := aorc_proper hd
    exact evals_congr
      (show t [s, .tup [.int 6, .tup [b, .tup [c, d]]]] =
        t [s, .tup [.int 6, b, c, d]] by simp [t, aorc, hs', hb', hc', hd'])
      (evals_six_true hs' hb' hc' hd' ht hcv)
  · intro s b c d v hs hb hc hd ht hdv
    have hs' := aorc_proper hs
    have hb' := aorc_proper hb
    have hc' := aorc_proper hc
    have hd' := aorc_proper hd
    exact evals_congr
      (show t [s, .tup [.int 6, .tup [b, .tup [c, d]]]] =
        t [s, .tup [.int 6, b, c, d]] by simp [t, aorc, hs', hb', hc', hd'])
      (evals_six_false hs' hb' hc' hd' ht hdv)

/-- C4 witness: the if-then-else theorem applied at subject `42`, test
`[1 0]`, branches `[1 5]` and `[1 9]`. -/
theorem c4_witness :
    Evals (.tup [.int 42, .tup [.int 6, .tup [.int 1, .int 0],
      .tup [.int 1, .int 5], .tup [.int 1, .int 9]]]) (.int 5) :=
  c4_opcode6_if_then_else.1 (.int 42) (.tup [.int 1, .int 0])
    (.tup [.int 1, .int 5]) (.tup [.int 1, .int 9]) (.int 5)
    (IsProper.int 42) (IsProper.cell (IsProper.int 1) (IsProper.int 0))
    (IsProper.cell (IsProper.int 1) (IsProper.int 5))
    (IsProper.cell (IsProper.int 1) (IsProper.int 9))
    ⟨4, rfl⟩ ⟨4, rfl⟩

/-- C4 counterexample: with the non-boolean test `(1, 7)` the reduction
does not crash — it returns `43` (the `c` branch), refuting the claimed
crash. -/
theorem c4_counterexample :
    tar 80 (.tup [.int 42, .tup [.int 6, .tup [.int 1, .int 7],
      .tup [.int 4, .int 0, .int 1], .tup [.int 1, .int 233]]])
      = .ok (.int 43) := rfl

end Nock

